import Mathlib

/-!
Verification of the post-processing pipeline of `utils/utils.py`
(YOLOPv2-1D_Coordinates): boundary extraction of a drivable-area edge mask
into a fixed-length 1D profile, box geometry (format conversion, IoU),
non-maximum suppression, and the letterbox padding split.

Numbers are modelled exactly: machine floats become rationals (ℚ), pixel
coordinates become integers (ℤ).  Python code that can raise (indexing out
of range, division by zero, `range` with zero step) is modelled with
`Option`: `none` is the error outcome.  NumPy/torch float results that are
NaN/inf are likewise modelled as `none` where they arise.
-/

/-- Python `round` (also used by `int(round(...))` on NumPy scalars): round
half to even.  `q - ⌊q⌋` is the fractional part; on a tie the even
neighbour is chosen. -/
def pyRound (q : ℚ) : ℤ :=
  let f := ⌊q⌋
  if q - f < 1/2 then f
  else if 1/2 < q - f then f + 1
  else if f % 2 = 0 then f else f + 1

/-- Error-aware list traversal: builds the list of results, `none` as soon
as one element fails (models a Python loop that may raise). -/
def optionMapM (f : α → Option β) : List α → Option (List β)
  | [] => some []
  | a :: l => (f a).bind fun b => (optionMapM f l).map fun bs => b :: bs

/-! ## Boundary extraction pipeline (`get_drivable_area_in_1D` and helpers) -/

/-- `convert_seg_to_arr(polygon)`: the edge image holds 255 on edge pixels;
`binary_matrix = polygon / 255` and every pixel with value 1 at raster row
`y`, column `x` yields the point `(x, height - y - 1)` (bottom-origin
flip).  Pixel values are modelled as exact rationals, so
`polygon[y][x] / 255 == 1` holds exactly when the pixel value is 255. -/
def convert_seg_to_arr (polygon : List (List ℚ)) : List (ℤ × ℤ) :=
  let h := polygon.length
  polygon.enum.flatMap fun row =>
    row.2.enum.filterMap fun px =>
      if px.2 / 255 = 1 then some (((px.1 : ℤ), ((h : ℤ) - row.1 - 1))) else none

/-- The value `max_y_values[x]` built by `remove_bottom_edge`: the running
`max` over the `y` of every point of the list whose first component is
`x` (the dictionary fold seeds with the first such `y`). -/
def maxYAt (l : List (ℤ × ℤ)) (x : ℤ) : ℤ :=
  match (l.filter fun c => c.1 == x).map (fun c => c.2) with
  | [] => 0
  | y :: ys => ys.foldl max y

/-- `remove_bottom_edge(polygon_coords)`: keep the points whose `y` equals
the maximal `y` recorded for their `x`. -/
def remove_bottom_edge (polygon_coords : List (ℤ × ℤ)) : List (ℤ × ℤ) :=
  polygon_coords.filter fun c => c.2 == maxYAt polygon_coords c.1

/-- Python `sorted(coords, key=lambda coord: coord[0])`: stable sort by the
first component (insertion sort is stable, like CPython's sort). -/
def sortByX (l : List (ℤ × ℤ)) : List (ℤ × ℤ) :=
  l.insertionSort fun a b => a.1 ≤ b.1

/-- The column value used by the gap-filling loop of `fill_missing_coords`
for column `x`: the loop tests `x in existing_x_values` (the set of first
components of `sorted_coords`) and on success takes
`next(coord[1] for coord in sorted_coords if coord[0] == x)`; both steps
together are exactly `find?` on `sorted_coords`, with default 0 for a
missing column. -/
def gapY (sorted_coords : List (ℤ × ℤ)) (x : ℤ) : ℤ :=
  match sorted_coords.find? (fun c => c.1 == x) with
  | some c => c.2
  | none => 0

/-- The `for x in range(0, max_x)` loop of `fill_missing_coords`: one pair
per column `x` of `[0, max_x)`, keeping the recorded `y` of an existing
column and synthesizing `y = 0` otherwise. -/
def gapFill (sorted_coords : List (ℤ × ℤ)) (max_x : ℕ) : List (ℤ × ℤ) :=
  (List.range max_x).map fun (x : ℕ) => ((x : ℤ), gapY sorted_coords (x : ℤ))

/-- `regular_sample(coordinates, n_sample)`: `step = len // n_sample`,
indices `i * step` for `i < n_sample`.  `n_sample = 0` raises
`ZeroDivisionError` in Python and an out-of-range index raises
`IndexError`; both are `none`. -/
def regular_sample (coordinates : List α) (n_sample : ℕ) : Option (List α) :=
  if n_sample = 0 then none
  else
    let step := coordinates.length / n_sample
    optionMapM (fun i => coordinates[i]?) ((List.range n_sample).map (· * step))

/-- `fill_missing_coords(filtered_polygon_coords, max_x, max_y)`: sort by
`x`, gap-fill every column of `[0, max_x)`, then return a regular
100-sample of the gap-filled list, sorted by `x` again.  The debug print
indexes `sorted_coords[0][0]`, so an empty input raises (`none`).
`max_y` only feeds a printed value and is unused. -/
def fill_missing_coords (filtered_polygon_coords : List (ℤ × ℤ)) (max_x max_y : ℕ) :
    Option (List (ℤ × ℤ)) :=
  let sorted_coords := sortByX filtered_polygon_coords
  if sorted_coords = [] then none
  else
    let updated_coords := gapFill sorted_coords max_x
    (regular_sample updated_coords 100).map sortByX

/-- `np.mean` of a list of rationals; `none` for the empty list (NumPy
yields NaN and the subsequent `int(round(...))` raises). -/
def npMean (l : List ℚ) : Option ℚ :=
  if l = [] then none else some (l.sum / l.length)

/-- `np.median`: sort ascending, middle element for odd length, mean of the
two middle elements for even length; `none` for the empty list (NaN). -/
def npMedian (l : List ℚ) : Option ℚ :=
  if l = [] then none
  else
    let s := l.insertionSort fun a b => a ≤ b
    if l.length % 2 = 1 then s[l.length / 2]?
    else (s[l.length / 2 - 1]?).bind fun a => (s[l.length / 2]?).map fun b => (a + b) / 2

/-- Start indices of Python `range(0, len, k)` for `k ≥ 1`. -/
def chunkStarts (len k : ℕ) : List ℕ :=
  (List.range ((len + k - 1) / k)).map (· * k)

/-- The chunks `l[i:i+k]` for `i in range(0, len(l), k)`. -/
def chunksOf (l : List α) (k : ℕ) : List (List α) :=
  (chunkStarts l.length k).map fun i => (l.drop i).take k

/-- The polygon point source of `get_drivable_area_in_1D`: the points of
the edge mask, or the flat fallback polygon
`[(i, 0) for i in range(current_width + 1)]` when the mask yields none. -/
def pipelineCoords (segmentation_matrix : List (List ℚ)) (current_width : ℕ) : List (ℤ × ℤ) :=
  let polygon_coords := convert_seg_to_arr segmentation_matrix
  if polygon_coords = [] then
    (List.range (current_width + 1)).map fun (i : ℕ) => ((i : ℤ), (0 : ℤ))
  else polygon_coords

/-- `get_drivable_area_in_1D(segmentation_matrix, current_width,
current_height)`: extract points, bottom-edge filter, gap-fill + resample
(`fill_missing_coords`), then chunk the result with
`width_N = len(updated_coords) // 100` and emit per chunk the pair
`(int(round(np.median(xs))), int(round(np.mean(ys))))`; the returned
profile holds the `y` values only.  `width_N = 0` would make
`range(0, len, 0)` raise (`none`). -/
def get_drivable_area_in_1D (segmentation_matrix : List (List ℚ))
    (current_width current_height : ℕ) : Option (List ℤ) :=
  let filtered_polygon_coords := remove_bottom_edge (pipelineCoords segmentation_matrix current_width)
  (fill_missing_coords filtered_polygon_coords current_width current_height).bind
    fun updated_coords =>
      let width_N := updated_coords.length / 100
      if width_N = 0 then none
      else
        (optionMapM (fun chunk =>
            (npMean (chunk.map fun c => ((c.2 : ℚ)))).bind fun mean_y =>
            (npMedian (chunk.map fun c => ((c.1 : ℚ)))).map fun median_x =>
            (pyRound median_x, pyRound mean_y))
          (chunksOf updated_coords width_N)).map
          fun discretized_coords => discretized_coords.map fun c => c.2

/-! ## Letterbox padding split (`letterbox`, lines 644-653) -/

/-- The padding split of `letterbox`: the total padding of one axis is
halved (`dw /= 2`) and the two sides become
`int(round(dw - 0.1))` and `int(round(dw + 0.1))`
(leading edge = top/left first). -/
def letterbox_side_padding (total : ℚ) : ℤ × ℤ :=
  let half := total / 2
  (pyRound (half - 1/10), pyRound (half + 1/10))

/-! ## Box geometry (`xywh2xyxy`, `xyxy2xywh`, `box_iou`) -/

/-- A row of an `n x 4` box array. -/
abbrev Vec4 := ℚ × ℚ × ℚ × ℚ

/-- `xywh2xyxy(x)`: rowwise `(cx, cy, w, h) -> (cx - w/2, cy - h/2, cx + w/2, cy + h/2)`. -/
def xywh2xyxy (x : List Vec4) : List Vec4 :=
  x.map fun b =>
    (b.1 - b.2.2.1 / 2, b.2.1 - b.2.2.2 / 2, b.1 + b.2.2.1 / 2, b.2.1 + b.2.2.2 / 2)

/-- `xyxy2xywh(x)`: rowwise `(x1, y1, x2, y2) -> ((x1+x2)/2, (y1+y2)/2, x2-x1, y2-y1)`. -/
def xyxy2xywh (x : List Vec4) : List Vec4 :=
  x.map fun b =>
    ((b.1 + b.2.2.1) / 2, (b.2.1 + b.2.2.2) / 2, b.2.2.1 - b.1, b.2.2.2 - b.2.1)

/-- `box_area(box) = (x2 - x1) * (y2 - y1)` — the raw product, with no
clamping of degenerate boxes. -/
def box_area (b : Vec4) : ℚ :=
  (b.2.2.1 - b.1) * (b.2.2.2 - b.2.1)

/-- The intersection term of `box_iou`:
`(min(x2) - max(x1)).clamp(0) * (min(y2) - max(y1)).clamp(0)`. -/
def box_inter (a b : Vec4) : ℚ :=
  max 0 (min a.2.2.1 b.2.2.1 - max a.1 b.1) * max 0 (min a.2.2.2 b.2.2.2 - max a.2.1 b.2.1)

/-- One entry of the `box_iou` matrix: `inter / (area1 + area2 - inter)`.
The code divides with no guard; a zero denominator yields NaN or ±inf in
floats, modelled as `none`. -/
def boxIouPair (a b : Vec4) : Option ℚ :=
  let inter := box_inter a b
  let denom := box_area a + box_area b - inter
  if denom = 0 then none else some (inter / denom)

/-- `box_iou(box1, box2)`: the full pairwise IoU matrix. -/
def box_iou (box1 box2 : List Vec4) : List (List (Option ℚ)) :=
  box1.map fun a => box2.map fun b => boxIouPair a b

/-! ## Non-maximum suppression (`non_max_suppression` and helpers) -/

/-- A detection row after scoring: `(xyxy box, confidence, class id)`. -/
abbrev Det := Vec4 × ℚ × ℚ

/-- A raw candidate row of the prediction tensor:
`(xywh box params, objectness, class scores)`. -/
abbrev Row := Vec4 × ℚ × List ℚ

/-- Translate a box by a scalar offset on all four coordinates
(broadcast of `x[:, :4] + c`). -/
def boxOffset (b : Vec4) (c : ℚ) : Vec4 :=
  (b.1 + c, b.2.1 + c, b.2.2.1 + c, b.2.2.2 + c)

/-- The comparison `iou > threshold` on floats: a NaN entry (zero-union
pair, `none` here) compares false. -/
def iouGtBool (a b : Vec4) (t : ℚ) : Bool :=
  match boxIouPair a b with
  | some v => decide (t < v)
  | none => false

/-- Greedy NMS core of `torchvision.ops.nms` over score-sorted, enumerated
candidates: keep the head, drop every candidate whose IoU with it exceeds
the threshold, recurse.  The fuel (initially the list length, which never
runs out) makes the recursion structural. -/
def nmsGreedy (t : ℚ) : ℕ → List (ℕ × Vec4 × ℚ) → List ℕ
  | 0, _ => []
  | _, [] => []
  | fuel + 1, d :: rest =>
      d.1 :: nmsGreedy t fuel (rest.filter fun e => !iouGtBool d.2.1 e.2.1 t)

/-- `torchvision.ops.nms(boxes, scores, iou_threshold)`: indices of the
kept boxes, in decreasing score order. -/
def torchvision_nms (dets : List (Vec4 × ℚ)) (t : ℚ) : List ℕ :=
  nmsGreedy t dets.length ((dets.enum).insertionSort fun a b => b.2.2 ≤ a.2.2)

/-- The class offsets of the batched-NMS step:
`c = x[:, 5:6] * (0 if agnostic else max_wh)` with `max_wh = 4096`, added
to every box coordinate. -/
def offsetBoxes (dets : List Det) (agnostic : Bool) : List Vec4 :=
  dets.map fun d => boxOffset d.1 (d.2.2 * (if agnostic then 0 else 4096))

/-- Lines 491-493 of the suppressor: run `torchvision.ops.nms` on the
class-offset boxes with the detection confidences as scores. -/
def batchedNMSKeep (dets : List Det) (iou_thres : ℚ) (agnostic : Bool) : List ℕ :=
  torchvision_nms ((offsetBoxes dets agnostic).zip (dets.map fun d => d.2.1)) iou_thres

/-- Componentwise box scaling. -/
def scaleBox (c : ℚ) (b : Vec4) : Vec4 :=
  (c * b.1, c * b.2.1, c * b.2.2.1, c * b.2.2.2)

/-- Componentwise box sum. -/
def addBox (a b : Vec4) : Vec4 :=
  (a.1 + b.1, a.2.1 + b.2.1, a.2.2.1 + b.2.2.1, a.2.2.2 + b.2.2.2)

/-- Merge-NMS branch (lines 496-502): for every kept index `k`, weights
are `scores * (iou(boxes[k], boxes) > iou_thres)` over the offset boxes,
the kept box becomes the weight-weighted mean of the unoffset boxes, and
`redundant` (hardcoded `True` in the settings block) drops kept boxes
whose weight group holds no second box.  A zero weight sum would be NaN in
torch; ℚ division by zero gives the zero box here, an unreachable case for
positive confidences. -/
def mergeNMS (dets : List Det) (boxes : List Vec4) (keep : List ℕ) (iou_thres : ℚ) : List Det :=
  let rows := keep.map fun k =>
    let bk := boxes.getD k (0, 0, 0, 0)
    let flags := boxes.map fun b2 => iouGtBool bk b2 iou_thres
    let weights := (flags.zip dets).map fun fd => if fd.1 then fd.2.2.1 else 0
    let wsum := weights.sum
    let merged :=
      scaleBox (1 / wsum)
        (((weights.zip dets).map fun wd => scaleBox wd.1 wd.2.1).foldl addBox (0, 0, 0, 0))
    (k, merged, flags.count true)
  let rows := rows.filter fun r => decide (1 < r.2.2)
  rows.map fun r =>
    (r.2.1, (dets.getD r.1 ((0, 0, 0, 0), 0, 0)).2.1, (dets.getD r.1 ((0, 0, 0, 0), 0, 0)).2.2)

/-- One-hot class score row of an a-priori label
(`v[range(len(l)), l[:, 0].long() + 5] = 1.0`). -/
def oneHot (nc j : ℕ) : List ℚ :=
  (List.range nc).map fun k => if k = j then 1 else 0

/-- First maximal value of a class-score row with its index
(`x[:, 5:].max(1)`); torch errors on an empty row, ties keep the first
index. -/
def argmaxWithIdx (l : List ℚ) : ℚ × ℕ :=
  match l with
  | [] => (0, 0)
  | s :: rest =>
      rest.enum.foldl (fun acc p => if acc.1 < p.2 then (p.2, p.1 + 1) else acc) (s, 0)

/-- Steps 1-7 of the per-image suppressor body: objectness filter,
a-priori label injection, `continue` on empty (`none`), score
multiplication `x[:, 5:] *= x[:, 4:5]`, box conversion, label assignment
(multi-label or best class), class filter, `continue` on empty. -/
def nmsDets (nc : ℕ) (conf_thres : ℚ) (classes : Option (List ℚ)) (multi_label : Bool)
    (lbls : List (ℕ × Vec4)) (rows : List Row) : Option (List Det) :=
  let x := rows.filter fun r => decide (conf_thres < r.2.1)
  let x := if lbls = [] then x else x ++ lbls.map fun l => (l.2, (1 : ℚ), oneHot nc l.1)
  if x = [] then none
  else
    let x := x.map fun r => (r.1, r.2.1, r.2.2.map fun s => s * r.2.1)
    let boxes := xywh2xyxy (x.map fun r => r.1)
    let dets : List Det :=
      if multi_label then
        (boxes.zip x).flatMap fun bx =>
          bx.2.2.2.enum.filterMap fun jc =>
            if conf_thres < jc.2 then some (bx.1, jc.2, (jc.1 : ℚ)) else none
      else
        (boxes.zip x).filterMap fun bx =>
          let cj := argmaxWithIdx bx.2.2.2
          if conf_thres < cj.1 then some (bx.1, cj.1, (cj.2 : ℚ)) else none
    let dets :=
      match classes with
      | none => dets
      | some cs => dets.filter fun d => cs.contains d.2.2
    if dets = [] then none else some dets

/-- The whole per-image suppressor body with the `merge` switch made
explicit as a parameter (in the source it is the hardcoded local
`merge = False`): candidate cap at 30000 by descending confidence,
batched NMS, detection cap at 300, then the merge branch guarded by
`merge and (1 < n < 3E3)` where `n` is the candidate count before the
30000 cap. -/
def nmsPerImage (nc : ℕ) (conf_thres iou_thres : ℚ) (classes : Option (List ℚ))
    (agnostic multi_label merge : Bool) (lbls : List (ℕ × Vec4)) (rows : List Row) :
    Option (List Det) :=
  (nmsDets nc conf_thres classes multi_label lbls rows).map fun dets0 =>
    let n := dets0.length
    let dets :=
      if 30000 < n then (dets0.insertionSort fun a b => b.2.1 ≤ a.2.1).take 30000 else dets0
    let keep := (batchedNMSKeep dets iou_thres agnostic).take 300
    if merge ∧ 1 < n ∧ n < 3000 then mergeNMS dets (offsetBoxes dets agnostic) keep iou_thres
    else keep.filterMap fun k => dets[k]?

/-- The per-image suppressor body with the dead merge branch removed. -/
def nmsPerImageNoMergeBranch (nc : ℕ) (conf_thres iou_thres : ℚ) (classes : Option (List ℚ))
    (agnostic multi_label : Bool) (lbls : List (ℕ × Vec4)) (rows : List Row) :
    Option (List Det) :=
  (nmsDets nc conf_thres classes multi_label lbls rows).map fun dets0 =>
    let n := dets0.length
    let dets :=
      if 30000 < n then (dets0.insertionSort fun a b => b.2.1 ≤ a.2.1).take 30000 else dets0
    ((batchedNMSKeep dets iou_thres agnostic).take 300).filterMap fun k => dets[k]?

/-- The batch loop of `non_max_suppression` with its wall-clock budget.
`elapsed xi` is the oracle for `time.time() - t` observed at the check
after image `xi` was processed; a `continue`d image (step `none`) leaves
its preinitialized empty slot and skips the check.  On a budget overrun
the loop warns (`true` flag, the printed warning) and breaks: the
remaining slots keep their empty initial value. -/
def nmsLoop (step : ℕ → List Row → Option (List Det)) (elapsed : ℕ → ℚ) (time_limit : ℚ) :
    ℕ → List (List Row) → List (List Det) × Bool
  | _, [] => ([], false)
  | xi, img :: rest =>
    match step xi img with
    | none =>
      let r := nmsLoop step elapsed time_limit (xi + 1) rest
      ([] :: r.1, r.2)
    | some dets =>
      if time_limit < elapsed xi then (dets :: rest.map fun _ => [], true)
      else
        let r := nmsLoop step elapsed time_limit (xi + 1) rest
        (dets :: r.1, r.2)

/-- `non_max_suppression(prediction, conf_thres, iou_thres, classes,
agnostic, multi_label, labels)`: `nc` is the class-score width
`prediction.shape[2] - 5`; `multi_label &= nc > 1`; the settings block
hardcodes `merge = False` and `time_limit = 10.0`; `elapsed` is the
wall-clock oracle of the batch loop.  Returns one detection list per
image. -/
def non_max_suppression (nc : ℕ) (prediction : List (List Row)) (conf_thres iou_thres : ℚ)
    (classes : Option (List ℚ)) (agnostic multi_label : Bool)
    (labels : List (List (ℕ × Vec4))) (elapsed : ℕ → ℚ) : List (List Det) :=
  (nmsLoop
    (fun xi img =>
      nmsPerImage nc conf_thres iou_thres classes agnostic
        (multi_label && decide (1 < nc)) false (labels.getD xi []) img)
    elapsed 10 0 prediction).1

/-! ## Helper lemmas -/

theorem pyRound_intCast (z : ℤ) : pyRound (z : ℚ) = z := by
  simp only [pyRound, Int.floor_intCast, sub_self]
  norm_num

theorem optionMapM_eq_some (f : α → Option β) (g : α → β) :
    ∀ l : List α, (∀ a ∈ l, f a = some (g a)) → optionMapM f l = some (l.map g) := by
  intro l
  induction l with
  | nil => intro _; rfl
  | cons a l ih =>
    intro h
    have ha := h a (List.mem_cons_self a l)
    have hl := ih fun x hx => h x (List.mem_cons_of_mem a hx)
    simp [optionMapM, ha, hl]

theorem sortByX_perm (l : List (ℤ × ℤ)) : List.Perm (sortByX l) l :=
  List.perm_insertionSort _ l

theorem sortByX_eq_self {l : List (ℤ × ℤ)} (h : l.Pairwise fun a b => a.1 ≤ b.1) :
    sortByX l = l :=
  List.Sorted.insertionSort_eq h

theorem gapFill_length (s : List (ℤ × ℤ)) (W : ℕ) : (gapFill s W).length = W := by
  unfold gapFill
  simp only [List.length_map, List.length_range]

theorem gapFill_getElem? (s : List (ℤ × ℤ)) {W j : ℕ} (h : j < W) :
    (gapFill s W)[j]? = some ((j : ℤ), gapY s (j : ℤ)) := by
  unfold gapFill
  simp only [List.getElem?_map, List.getElem?_range, h, if_pos, Option.map_some']

theorem sample_index_lt {W : ℕ} (i : ℕ) (hW : 1 ≤ W) (hi : i < 100) :
    i * (W / 100) < W := by
  rcases Nat.eq_zero_or_pos (W / 100) with h | h
  · simpa [h] using hW
  · calc i * (W / 100) < 100 * (W / 100) := (Nat.mul_lt_mul_right h).mpr hi
    _ = W / 100 * 100 := Nat.mul_comm _ _
    _ ≤ W := Nat.div_mul_le_self W 100

theorem regular_sample_eq_map (l : List α) (n : ℕ) (d : α) (hn : ¬ n = 0)
    (hb : ∀ i, i < n → i * (l.length / n) < l.length) :
    regular_sample l n = some ((List.range n).map fun i => l.getD (i * (l.length / n)) d) := by
  unfold regular_sample
  rw [if_neg hn]
  have h := optionMapM_eq_some (fun i => l[i]?) (fun i => l.getD i d)
    ((List.range n).map (· * (l.length / n)))
    (by
      intro j hj
      rcases List.mem_map.mp hj with ⟨i, hi, rfl⟩
      have hlt : i * (l.length / n) < l.length := hb i (List.mem_range.mp hi)
      dsimp only
      rw [List.getElem?_eq_getElem hlt, List.getD_eq_getElem?_getD, List.getElem?_eq_getElem hlt]
      rfl)
  rw [h, List.map_map]
  rfl

theorem fill_missing_coords_eq (coords : List (ℤ × ℤ)) (W H : ℕ)
    (hne : coords ≠ []) (hW : 1 ≤ W) :
    fill_missing_coords coords W H
      = some ((List.range 100).map fun i =>
          (((i * (W / 100) : ℕ) : ℤ), gapY (sortByX coords) ((i * (W / 100) : ℕ) : ℤ))) := by
  have hs : ¬ sortByX coords = [] := by
    intro h
    exact hne ((h ▸ (sortByX_perm coords)).symm.eq_nil)
  have hlen : (gapFill (sortByX coords) W).length = W := gapFill_length _ _
  have hsample := regular_sample_eq_map (gapFill (sortByX coords) W) 100 ((0 : ℤ), (0 : ℤ))
    (by norm_num)
    (by
      intro i hi
      rw [hlen]
      exact sample_index_lt i hW hi)
  have hget : ∀ i ∈ List.range 100,
      (gapFill (sortByX coords) W).getD (i * ((gapFill (sortByX coords) W).length / 100))
        ((0 : ℤ), (0 : ℤ))
        = (((i * (W / 100) : ℕ) : ℤ), gapY (sortByX coords) ((i * (W / 100) : ℕ) : ℤ)) := by
    intro i hi
    rw [List.getD_eq_getElem?_getD, hlen, gapFill_getElem? _ (sample_index_lt i hW (List.mem_range.mp hi))]
    rfl
  have hmap := List.map_congr_left hget
  have hsorted : ((List.range 100).map fun i =>
      (((i * (W / 100) : ℕ) : ℤ), gapY (sortByX coords) ((i * (W / 100) : ℕ) : ℤ))).Pairwise
        (fun a b : ℤ × ℤ => a.1 ≤ b.1) := by
    rw [List.pairwise_map]
    apply (List.pairwise_lt_range 100).imp
    intro a b hab
    have h := Nat.mul_le_mul_right (W / 100) (Nat.le_of_lt hab)
    dsimp only
    exact_mod_cast h
  simp only [fill_missing_coords, if_neg hs, hsample, Option.map_some', hmap,
    sortByX_eq_self hsorted]

theorem foldl_max_mem (ys : List ℤ) : ∀ y : ℤ, ys.foldl max y ∈ y :: ys := by
  induction ys with
  | nil => intro y; simp
  | cons z zs ih =>
    intro y
    have h := ih (max y z)
    rcases List.mem_cons.mp h with h | h
    · rcases max_choice y z with hm | hm
      · exact List.mem_cons.mpr (Or.inl (by simpa [hm] using h))
      · refine List.mem_cons.mpr (Or.inr ?_)
        exact List.mem_cons.mpr (Or.inl (by simpa [hm] using h))
    · exact List.mem_cons.mpr (Or.inr (List.mem_cons.mpr (Or.inr (by simpa using h))))

theorem remove_bottom_edge_ne_nil {l : List (ℤ × ℤ)} (h : l ≠ []) :
    remove_bottom_edge l ≠ [] := by
  rcases l with _ | ⟨c0, l'⟩
  · exact absurd rfl h
  set l := c0 :: l' with hl
  have hc0 : c0 ∈ l.filter fun c => c.1 == c0.1 :=
    List.mem_filter.mpr ⟨List.mem_cons_self c0 l', by simp⟩
  have hy0 : c0.2 ∈ (l.filter fun c => c.1 == c0.1).map fun c => c.2 :=
    List.mem_map_of_mem _ hc0
  rcases hys : (l.filter fun c => c.1 == c0.1).map fun c => c.2 with _ | ⟨y, ys⟩
  · rw [hys] at hy0; exact absurd hy0 (List.not_mem_nil _)
  have hmax : maxYAt l c0.1 = ys.foldl max y := by
    simp [maxYAt, hys]
  have hmem : maxYAt l c0.1 ∈ (l.filter fun c => c.1 == c0.1).map fun c => c.2 := by
    rw [hys, hmax]
    exact foldl_max_mem ys y
  rcases List.mem_map.mp hmem with ⟨c, hcmem, hcy⟩
  have hcl : c ∈ l := List.mem_of_mem_filter hcmem
  have hcx : c.1 = c0.1 := by
    have := List.of_mem_filter hcmem
    exact beq_iff_eq.mp this
  have : c ∈ remove_bottom_edge l := by
    apply List.mem_filter.mpr
    refine ⟨hcl, ?_⟩
    rw [hcx, hcy]
    simp
  exact List.ne_nil_of_mem this

theorem pipelineCoords_ne_nil (mask : List (List ℚ)) (W : ℕ) :
    pipelineCoords mask W ≠ [] := by
  unfold pipelineCoords
  by_cases h : convert_seg_to_arr mask = []
  · rw [if_pos h]
    simp [List.map_eq_nil_iff, List.range_eq_nil]
  · rw [if_neg h]
    exact h

theorem chunkStarts_one (len : ℕ) : chunkStarts len 1 = List.range len := by
  unfold chunkStarts
  simp

theorem chunksOf_one (l : List α) : chunksOf l 1 = l.map fun a => [a] := by
  unfold chunksOf
  rw [chunkStarts_one]
  apply List.ext_getElem?
  intro i
  by_cases hi : i < l.length
  · rw [List.getElem?_map, List.getElem?_range hi, List.getElem?_map,
      List.getElem?_eq_getElem hi]
    simp only [Option.map_some']
    rw [List.drop_eq_getElem_cons hi]
    rfl
  · have h1 : l.length ≤ i := Nat.le_of_not_lt hi
    rw [List.getElem?_eq_none (by simpa using h1), List.getElem?_eq_none (by simpa using h1)]

theorem chunk_step_singleton (p : ℤ × ℤ) :
    (npMean ([p].map fun c => ((c.2 : ℚ)))).bind (fun mean_y =>
      (npMedian ([p].map fun c => ((c.1 : ℚ)))).map fun median_x =>
      (pyRound median_x, pyRound mean_y)) = some p := by
  simp [npMean, npMedian, List.insertionSort, List.orderedInsert, pyRound_intCast]

theorem get_drivable_area_in_1D_eq (mask : List (List ℚ)) (W H : ℕ) (hW : 1 ≤ W) :
    get_drivable_area_in_1D mask W H
      = some ((List.range 100).map fun i =>
          gapY (sortByX (remove_bottom_edge (pipelineCoords mask W)))
            ((i * (W / 100) : ℕ) : ℤ)) := by
  have hne := remove_bottom_edge_ne_nil (pipelineCoords_ne_nil mask W)
  have hfill := fill_missing_coords_eq (remove_bottom_edge (pipelineCoords mask W)) W H hne hW
  unfold get_drivable_area_in_1D
  dsimp only
  rw [hfill, Option.some_bind]
  set s := sortByX (remove_bottom_edge (pipelineCoords mask W)) with hs
  set L := (List.range 100).map fun i =>
    (((i * (W / 100) : ℕ) : ℤ), gapY s ((i * (W / 100) : ℕ) : ℤ)) with hL
  have hlen : L.length = 100 := by
    rw [hL, List.length_map, List.length_range]
  rw [hlen]
  rw [show (100 : ℕ) / 100 = 1 from rfl]
  rw [if_neg (one_ne_zero)]
  have hmapM := optionMapM_eq_some
    (fun chunk : List (ℤ × ℤ) =>
      (npMean (chunk.map fun c => ((c.2 : ℚ)))).bind fun mean_y =>
      (npMedian (chunk.map fun c => ((c.1 : ℚ)))).map fun median_x =>
      (pyRound median_x, pyRound mean_y))
    (fun chunk => chunk.headD (0, 0))
    (L.map fun a => [a])
    (by
      intro chunk hchunk
      rcases List.mem_map.mp hchunk with ⟨p, _, rfl⟩
      exact chunk_step_singleton p)
  rw [chunksOf_one, hmapM, List.map_map]
  have hcomp : ((fun c : List (ℤ × ℤ) => c.headD (0, 0)) ∘ fun a => [a]) = id := by
    funext a
    rfl
  rw [hcomp, List.map_id, Option.map_some']
  rw [hL, List.map_map]
  rfl

theorem convert_seg_to_arr_of_zero {mask : List (List ℚ)}
    (hz : ∀ row ∈ mask, ∀ v ∈ row, v = 0) : convert_seg_to_arr mask = [] := by
  unfold convert_seg_to_arr
  rw [List.flatMap_eq_nil_iff]
  intro rp hrp
  rw [List.filterMap_eq_nil_iff]
  intro px hpx
  have hrow : rp.2 ∈ mask := by
    have h := List.enum_map_snd mask
    exact h ▸ List.mem_map_of_mem Prod.snd hrp
  have hv : px.2 ∈ rp.2 := by
    have h := List.enum_map_snd rp.2
    exact h ▸ List.mem_map_of_mem Prod.snd hpx
  have h0 : px.2 = 0 := hz rp.2 hrow px.2 hv
  rw [if_neg]
  rw [h0, zero_div]
  exact zero_ne_one

theorem gapY_eq_zero {s : List (ℤ × ℤ)} (hz : ∀ c ∈ s, c.2 = 0) (x : ℤ) :
    gapY s x = 0 := by
  unfold gapY
  rcases hf : s.find? fun c => c.1 == x with _ | c
  · rw [hf]
  · rw [hf]
    exact hz c (List.mem_of_find?_eq_some hf)

theorem get_drivable_area_in_1D_all_zero (mask : List (List ℚ)) (W H : ℕ) (hW : 1 ≤ W)
    (hz : ∀ row ∈ mask, ∀ v ∈ row, v = 0) :
    get_drivable_area_in_1D mask W H = some (List.replicate 100 0) := by
  rw [get_drivable_area_in_1D_eq mask W H hW]
  have hpc : ∀ c ∈ pipelineCoords mask W, c.2 = 0 := by
    unfold pipelineCoords
    rw [convert_seg_to_arr_of_zero hz, if_pos rfl]
    intro c hc
    rcases List.mem_map.mp hc with ⟨i, _, rfl⟩
    rfl
  have hsz : ∀ c ∈ sortByX (remove_bottom_edge (pipelineCoords mask W)), c.2 = 0 := by
    intro c hc
    exact hpc c (List.mem_of_mem_filter ((sortByX_perm _).subset hc))
  have hmap : ((List.range 100).map fun i =>
      gapY (sortByX (remove_bottom_edge (pipelineCoords mask W))) ((i * (W / 100) : ℕ) : ℤ))
        = (List.range 100).map fun _ => (0 : ℤ) :=
    List.map_congr_left fun i _ => gapY_eq_zero hsz _
  rw [hmap]
  rw [show ((List.range 100).map fun _ => (0 : ℤ)) = List.replicate (List.range 100).length 0
    from List.map_const' _ _, List.length_range]

theorem regular_sample_short (coords : List α) (n : ℕ) (hne : coords ≠ []) (hn : 0 < n)
    (hlen : coords.length < n) :
    ∃ a, coords.head? = some a ∧ regular_sample coords n = some (List.replicate n a) := by
  rcases coords with _ | ⟨a, t⟩
  · exact absurd rfl hne
  refine ⟨a, rfl, ?_⟩
  unfold regular_sample
  rw [if_neg (Nat.pos_iff_ne_zero.mp hn)]
  have hstep : (a :: t).length / n = 0 := Nat.div_eq_of_lt hlen
  rw [hstep]
  have h := optionMapM_eq_some (fun i => (a :: t)[i]?) (fun _ => a)
    ((List.range n).map (· * 0))
    (by
      intro j hj
      rcases List.mem_map.mp hj with ⟨i, _, rfl⟩
      rw [Nat.mul_zero]
      dsimp only
      exact List.getElem?_cons_zero)
  rw [h, List.map_map]
  rw [show ((List.range n).map ((fun _ => a) ∘ (· * 0))) = (List.range n).map fun _ => a from rfl]
  rw [List.map_const', List.length_range]

/-- C1 (amended): for every edge mask and fixed width `W ≥ 100`, the
boundary pipeline `get_drivable_area_in_1D` succeeds deterministically and
returns a profile of exactly 100 samples — not `⌊W / (W / 100)⌋` samples:
`fill_missing_coords` already resamples the width-complete column list to
100 entries, so the chunking loop runs with bucket width
`len(updated_coords) // 100 = 1` over the 100-element list. -/
theorem get_drivable_profile_length_100 (mask : List (List ℚ)) (W H : ℕ) (hW : 100 ≤ W) :
    ∃ ys, get_drivable_area_in_1D mask W H = some ys ∧ ys.length = 100 := by
  refine ⟨_, get_drivable_area_in_1D_eq mask W H (le_trans (by norm_num) hW), ?_⟩
  rw [List.length_map, List.length_range]

/-- Witness for `get_drivable_profile_length_100` at the empty mask and
width 100. -/
theorem get_drivable_profile_length_100_witness :
    100 ≤ 100 ∧ ∃ ys, get_drivable_area_in_1D [] 100 0 = some ys ∧ ys.length = 100 :=
  ⟨by decide, get_drivable_profile_length_100 [] 100 0 (by decide)⟩

/-- C1 (counterexample): at width `W = 150` (all-zero mask of one row) the
profile holds 100 samples, while `⌊W / (W // 100)⌋ = ⌊150 / 1⌋ = 150`: the
claimed sample count is wrong. -/
theorem get_drivable_length_ne_bucket_formula :
    (get_drivable_area_in_1D [[]] 150 1).map List.length = some 100 ∧
      150 / (150 / 100) = 150 ∧ (100 : ℕ) ≠ 150 := by
  refine ⟨?_, by decide, by decide⟩
  rw [get_drivable_area_in_1D_all_zero [[]] 150 1 (by norm_num) (by simp)]
  simp

/-- C2 (amended): for every non-empty filtered point set and width
`W ≥ 100`, `fill_missing_coords` gap-fills every integer column of
`[0, W)` (a recorded `x` keeps its `y`, missing columns get `y = 0`) but
returns only a regular 100-point sample of those columns, in strictly
increasing `x` order — 100 pairs, not `W` pairs. -/
theorem fill_missing_coords_returns_100 (coords : List (ℤ × ℤ)) (W H : ℕ)
    (hne : coords ≠ []) (hW : 100 ≤ W) :
    ∃ l, fill_missing_coords coords W H = some l ∧ l.length = 100 ∧
      (l.Pairwise fun a b => a.1 < b.1) ∧
      ∀ p ∈ l, (0 : ℤ) ≤ p.1 ∧ p.1 < (W : ℤ) ∧
        ((∃ c ∈ coords, c.1 = p.1 ∧ c.2 = p.2) ∨ ((∀ c ∈ coords, c.1 ≠ p.1) ∧ p.2 = 0)) := by
  have hW1 : 1 ≤ W := le_trans (by norm_num) hW
  have hstep : 1 ≤ W / 100 := (Nat.one_le_div_iff (by norm_num)).mpr hW
  refine ⟨_, fill_missing_coords_eq coords W H hne hW1, ?_, ?_, ?_⟩
  · rw [List.length_map, List.length_range]
  · rw [List.pairwise_map]
    apply (List.pairwise_lt_range 100).imp
    intro a b hab
    have h : a * (W / 100) < b * (W / 100) := (Nat.mul_lt_mul_right hstep).mpr hab
    dsimp only
    exact_mod_cast h
  · intro p hp
    rcases List.mem_map.mp hp with ⟨i, hi, rfl⟩
    refine ⟨Int.ofNat_nonneg _, ?_, ?_⟩
    · dsimp only
      exact_mod_cast sample_index_lt i hW1 (List.mem_range.mp hi)
    · dsimp only
      unfold gapY
      rcases hf : (sortByX coords).find? (fun c => c.1 == ((i * (W / 100) : ℕ) : ℤ)) with _ | c
      · rw [hf]
        refine Or.inr ⟨?_, rfl⟩
        intro c hc
        have h := List.find?_eq_none.mp hf c (((sortByX_perm coords).symm).subset hc)
        simpa using h
      · rw [hf]
        refine Or.inl ⟨c, (sortByX_perm coords).subset (List.mem_of_find?_eq_some hf), ?_, rfl⟩
        have h := List.find?_some hf
        simpa using h

/-- Witness for `fill_missing_coords_returns_100` at a single recorded
point and width 101. -/
theorem fill_missing_coords_returns_100_witness :
    (([((0 : ℤ), (5 : ℤ))] : List (ℤ × ℤ)) ≠ [] ∧ 100 ≤ 101) ∧
      ∃ l, fill_missing_coords [((0 : ℤ), (5 : ℤ))] 101 7 = some l ∧ l.length = 100 ∧
        (l.Pairwise fun a b => a.1 < b.1) ∧
        ∀ p ∈ l, (0 : ℤ) ≤ p.1 ∧ p.1 < (101 : ℤ) ∧
          ((∃ c ∈ ([((0 : ℤ), (5 : ℤ))] : List (ℤ × ℤ)), c.1 = p.1 ∧ c.2 = p.2) ∨
            ((∀ c ∈ ([((0 : ℤ), (5 : ℤ))] : List (ℤ × ℤ)), c.1 ≠ p.1) ∧ p.2 = 0)) :=
  ⟨⟨by decide, by decide⟩,
    fill_missing_coords_returns_100 [((0 : ℤ), (5 : ℤ))] 101 7 (by decide) (by decide)⟩

/-- C2 (counterexample): with one recorded point and width `W = 101` the
gap-filling step returns 100 pairs, not `W = 101` pairs. -/
theorem fill_missing_coords_not_all_columns :
    (fill_missing_coords [((0 : ℤ), (5 : ℤ))] 101 7).map List.length = some 100 ∧
      (100 : ℕ) ≠ 101 := by
  constructor
  · rw [fill_missing_coords_eq [((0 : ℤ), (5 : ℤ))] 101 7 (by decide) (by norm_num)]
    simp
  · decide

/-- C9 (confirmed): on the all-zero 600x360 edge mask the pipeline falls
back to the flat polygon and returns exactly 100 samples, all `y = 0`. -/
theorem all_zero_600_mask_profile :
    get_drivable_area_in_1D (List.replicate 360 (List.replicate 600 (0 : ℚ))) 600 360
      = some (List.replicate 100 0) := by
  apply get_drivable_area_in_1D_all_zero _ _ _ (by norm_num)
  intro row hrow v hv
  rw [List.eq_of_mem_replicate hrow] at hv
  exact List.eq_of_mem_replicate hv

/-- C10 (confirmed): for a non-empty coordinate list shorter than the
sample count, `regular_sample` computes step `len // n = 0` and returns
`n` copies of the first element; consequently for `1 ≤ W < 100` the whole
pipeline returns 100 identical samples, all equal to the gap-filled `y` of
the lowest column `x = 0`. -/
theorem regular_sample_degenerate_and_pipeline :
    (∀ (coords : List (ℤ × ℤ)) (n : ℕ), coords ≠ [] → 0 < n → coords.length < n →
      ∃ a, coords.head? = some a ∧ regular_sample coords n = some (List.replicate n a)) ∧
    (∀ (mask : List (List ℚ)) (W H : ℕ), 1 ≤ W → W < 100 →
      get_drivable_area_in_1D mask W H
        = some (List.replicate 100
            (gapY (sortByX (remove_bottom_edge (pipelineCoords mask W))) 0))) := by
  constructor
  · intro coords n hne hn hlen
    exact regular_sample_short coords n hne hn hlen
  · intro mask W H hW1 hW100
    rw [get_drivable_area_in_1D_eq mask W H hW1]
    rw [Nat.div_eq_of_lt hW100]
    have hmap : ((List.range 100).map fun i =>
        gapY (sortByX (remove_bottom_edge (pipelineCoords mask W))) ((i * 0 : ℕ) : ℤ))
          = (List.range 100).map fun _ =>
            gapY (sortByX (remove_bottom_edge (pipelineCoords mask W))) 0 := by
      apply List.map_congr_left
      intro i _
      rw [Nat.mul_zero]
      rfl
    rw [hmap, List.map_const', List.length_range]

/-- Witness for `regular_sample_degenerate_and_pipeline`: the short-list
branch at a two-element question, the pipeline branch at width 50. -/
theorem regular_sample_degenerate_and_pipeline_witness :
    ((([((1 : ℤ), (2 : ℤ))] : List (ℤ × ℤ)) ≠ [] ∧ 0 < 3 ∧
        ([((1 : ℤ), (2 : ℤ))] : List (ℤ × ℤ)).length < 3) ∧ (1 ≤ 50 ∧ 50 < 100)) ∧
      (∃ a, ([((1 : ℤ), (2 : ℤ))] : List (ℤ × ℤ)).head? = some a ∧
        regular_sample [((1 : ℤ), (2 : ℤ))] 3 = some (List.replicate 3 a)) ∧
      get_drivable_area_in_1D [] 50 0
        = some (List.replicate 100
            (gapY (sortByX (remove_bottom_edge (pipelineCoords [] 50))) 0)) :=
  ⟨⟨⟨by decide, by decide, by decide⟩, ⟨by decide, by decide⟩⟩,
    regular_sample_degenerate_and_pipeline.1 [((1 : ℤ), (2 : ℤ))] 3 (by decide) (by decide)
      (by decide),
    regular_sample_degenerate_and_pipeline.2 [] 50 0 (by decide) (by decide)⟩

/-- C5 (confirmed): over exact rationals, converting center-form boxes to
corner-form and back (`xyxy2xywh(xywh2xyxy(x))`) is the identity on every
`n x 4` box list. -/
theorem xywh_xyxy_roundtrip (x : List Vec4) : xyxy2xywh (xywh2xyxy x) = x := by
  unfold xywh2xyxy xyxy2xywh
  rw [List.map_map]
  have h : ∀ b ∈ x,
      ((fun b : Vec4 =>
          ((b.1 + b.2.2.1) / 2, (b.2.1 + b.2.2.2) / 2, b.2.2.1 - b.1, b.2.2.2 - b.2.1)) ∘
        (fun b : Vec4 =>
          (b.1 - b.2.2.1 / 2, b.2.1 - b.2.2.2 / 2, b.1 + b.2.2.1 / 2, b.2.1 + b.2.2.2 / 2))) b
        = b := by
    intro b _
    obtain ⟨cx, cy, w, hh⟩ := b
    simp only [Function.comp, Prod.mk.injEq]
    refine ⟨by ring, by ring, by ring, by ring⟩
  rw [List.map_congr_left h]
  exact List.map_id x

/-- C3 (amended): `box_iou` divides by `area1 + area2 - inter` with no
guard: an entry is defined (`some`) exactly when that denominator is
nonzero, and a zero denominator (for example two coincident degenerate
boxes) is a float division by zero (`none`), not a 0 result.  Degenerate
areas are the unclamped product `(x2-x1)*(y2-y1)`. -/
theorem boxIouPair_guard_free (a b : Vec4) :
    (boxIouPair a b = none ↔ box_area a + box_area b - box_inter a b = 0) ∧
    (box_area a + box_area b - box_inter a b ≠ 0 →
      boxIouPair a b = some (box_inter a b / (box_area a + box_area b - box_inter a b))) := by
  constructor
  · constructor
    · intro h
      by_contra hd
      unfold boxIouPair at h
      rw [if_neg hd] at h
      exact Option.noConfusion h
    · intro h
      unfold boxIouPair
      rw [if_pos h]
  · intro h
    unfold boxIouPair
    rw [if_neg h]

/-- Witness for `boxIouPair_guard_free` at the unit box paired with
itself. -/
theorem boxIouPair_guard_free_witness :
    (box_area ((0 : ℚ), 0, 1, 1) + box_area ((0 : ℚ), 0, 1, 1)
        - box_inter ((0 : ℚ), 0, 1, 1) ((0 : ℚ), 0, 1, 1) ≠ 0) ∧
      boxIouPair ((0 : ℚ), 0, 1, 1) ((0 : ℚ), 0, 1, 1)
        = some (box_inter ((0 : ℚ), 0, 1, 1) ((0 : ℚ), 0, 1, 1) /
            (box_area ((0 : ℚ), 0, 1, 1) + box_area ((0 : ℚ), 0, 1, 1)
              - box_inter ((0 : ℚ), 0, 1, 1) ((0 : ℚ), 0, 1, 1))) :=
  ⟨by simp [box_area, box_inter],
    (boxIouPair_guard_free ((0 : ℚ), 0, 1, 1) ((0 : ℚ), 0, 1, 1)).2
      (by simp [box_area, box_inter])⟩

/-- C3 (counterexample): two coincident degenerate point boxes have zero
union and `box_iou` performs the division 0/0 (`none`, NaN in floats)
instead of returning 0; and the area of the degenerate box
`(0, 0, -1, -1)` is computed as 1, not treated as 0. -/
theorem box_iou_division_by_zero :
    box_iou [((0 : ℚ), 0, 0, 0)] [((0 : ℚ), 0, 0, 0)] = [[none]] ∧
      box_area ((0 : ℚ), 0, -1, -1) = 1 := by
  constructor
  · simp [box_iou, boxIouPair, box_inter, box_area]
  · norm_num [box_area]

theorem pyRound_eq_floor {q : ℚ} (h : q - ⌊q⌋ < 1/2) : pyRound q = ⌊q⌋ := by
  unfold pyRound
  rw [if_pos h]

theorem pyRound_eq_floor_add_one {q : ℚ} (h : 1/2 < q - ⌊q⌋) : pyRound q = ⌊q⌋ + 1 := by
  unfold pyRound
  rw [if_neg (by linarith), if_pos h]

theorem floor_int_add_tenth (m : ℤ) : ⌊(m : ℚ) + 1/10⌋ = m := by
  rw [Int.floor_int_add]
  norm_num [Int.floor_eq_iff]

theorem floor_int_sub_tenth (m : ℤ) : ⌊(m : ℚ) - 1/10⌋ = m - 1 := by
  rw [sub_eq_add_neg, Int.floor_int_add]
  rw [show ⌊(-(1/10) : ℚ)⌋ = -1 by norm_num [Int.floor_eq_iff]]
  ring

theorem floor_int_add_two_fifth (m : ℤ) : ⌊(m : ℚ) + 2/5⌋ = m := by
  rw [Int.floor_int_add]
  norm_num [Int.floor_eq_iff]

theorem floor_int_add_three_fifth (m : ℤ) : ⌊(m : ℚ) + 3/5⌋ = m := by
  rw [Int.floor_int_add]
  norm_num [Int.floor_eq_iff]

theorem letterbox_side_padding_even (m : ℤ) :
    letterbox_side_padding ((2 * m : ℤ) : ℚ) = (m, m) := by
  unfold letterbox_side_padding
  dsimp only
  have h2 : (((2 * m : ℤ) : ℚ)) / 2 = (m : ℚ) := by push_cast; ring
  rw [h2]
  have ha : pyRound ((m : ℚ) - 1/10) = m := by
    rw [pyRound_eq_floor_add_one (by rw [floor_int_sub_tenth]; push_cast; linarith),
      floor_int_sub_tenth]
    ring
  have hb : pyRound ((m : ℚ) + 1/10) = m := by
    rw [pyRound_eq_floor (by rw [floor_int_add_tenth]; linarith), floor_int_add_tenth]
  rw [ha, hb]

theorem letterbox_side_padding_odd (m : ℤ) :
    letterbox_side_padding ((2 * m + 1 : ℤ) : ℚ) = (m, m + 1) := by
  unfold letterbox_side_padding
  dsimp only
  have hsub : (((2 * m + 1 : ℤ) : ℚ)) / 2 - 1/10 = (m : ℚ) + 2/5 := by push_cast; ring
  have hadd : (((2 * m + 1 : ℤ) : ℚ)) / 2 + 1/10 = (m : ℚ) + 3/5 := by push_cast; ring
  rw [hsub, hadd]
  have ha : pyRound ((m : ℚ) + 2/5) = m := by
    rw [pyRound_eq_floor (by rw [floor_int_add_two_fifth]; linarith),
      floor_int_add_two_fifth]
  have hb : pyRound ((m : ℚ) + 3/5) = m + 1 := by
    rw [pyRound_eq_floor_add_one (by rw [floor_int_add_three_fifth]; linarith),
      floor_int_add_three_fifth]
  rw [ha, hb]

/-- C8 (amended): `letterbox` splits each axis total padding into two sides
that always sum exactly to the total, but a fractional half is rounded in
favor of the trailing edge: bottom/right receives the larger part
(`top = int(round(dh - 0.1))`, `bottom = int(round(dh + 0.1))`), with
`bottom = top + 1` on odd totals. -/
theorem letterbox_padding_split (p : ℕ) :
    (letterbox_side_padding (p : ℚ)).1 + (letterbox_side_padding (p : ℚ)).2 = p ∧
    (letterbox_side_padding (p : ℚ)).1 ≤ (letterbox_side_padding (p : ℚ)).2 ∧
    (p % 2 = 1 →
      (letterbox_side_padding (p : ℚ)).2 = (letterbox_side_padding (p : ℚ)).1 + 1) := by
  rcases Nat.even_or_odd p with ⟨m, hm⟩ | ⟨m, hm⟩
  · have hcast : ((p : ℕ) : ℚ) = (((2 * (m : ℤ)) : ℤ) : ℚ) := by push_cast [hm]; ring
    rw [hcast, letterbox_side_padding_even]
    refine ⟨?_, le_refl _, ?_⟩
    · push_cast [hm]; ring
    · intro hodd
      omega
  · have hcast : ((p : ℕ) : ℚ) = (((2 * (m : ℤ) + 1) : ℤ) : ℚ) := by push_cast [hm]; ring
    rw [hcast, letterbox_side_padding_odd]
    refine ⟨?_, by omega, fun _ => rfl⟩
    push_cast [hm]
    ring

/-- Witness for `letterbox_padding_split` at total padding 1. -/
theorem letterbox_padding_split_witness :
    (1 % 2 = 1) ∧
      (letterbox_side_padding ((1 : ℕ) : ℚ)).1 + (letterbox_side_padding ((1 : ℕ) : ℚ)).2 = 1 ∧
      (letterbox_side_padding ((1 : ℕ) : ℚ)).2 = (letterbox_side_padding ((1 : ℕ) : ℚ)).1 + 1 :=
  ⟨by decide, (letterbox_padding_split 1).1, (letterbox_padding_split 1).2.2 (by decide)⟩

/-- C8 (counterexample): at total padding 1 the leading edge (top/left)
receives 0 and the trailing edge (bottom/right) receives 1 — the larger
part goes to the trailing edge, contradicting the claimed asymmetry. -/
theorem letterbox_leading_edge_smaller :
    letterbox_side_padding (1 : ℚ) = (0, 1) ∧ (0 : ℤ) < 1 := by
  constructor
  · have h := letterbox_side_padding_odd 0
    norm_num at h
    exact h
  · decide

theorem box_inter_comm (a b : Vec4) : box_inter a b = box_inter b a := by
  unfold box_inter
  rw [min_comm a.2.2.1 b.2.2.1, max_comm a.1 b.1, min_comm a.2.2.2 b.2.2.2,
    max_comm a.2.1 b.2.1]

theorem box_area_offset (b : Vec4) (c : ℚ) : box_area (boxOffset b c) = box_area b := by
  unfold box_area boxOffset
  ring

theorem box_inter_zero_of_gap {x1 y1 x2 y2 o1 o2 : ℚ} (hgap : o1 + 4096 ≤ o2)
    (hx1 : 0 ≤ x1) (hx4 : x2 < 4096) (hy1 : 0 ≤ y1) (hy4 : y2 < 4096) :
    box_inter (boxOffset (x1, y1, x2, y2) o1) (boxOffset (x1, y1, x2, y2) o2) = 0 := by
  unfold box_inter boxOffset
  dsimp only
  rw [min_eq_left (by linarith), max_eq_right (by linarith : x1 + o1 ≤ x1 + o2)]
  rw [max_eq_left (by linarith : x2 + o1 - (x1 + o2) ≤ 0)]
  rw [zero_mul]

theorem box_inter_self {b : Vec4} (hx : b.1 ≤ b.2.2.1) (hy : b.2.1 ≤ b.2.2.2) :
    box_inter b b = box_area b := by
  unfold box_inter box_area
  rw [min_self, max_self, min_self, max_self]
  rw [max_eq_right (by linarith), max_eq_right (by linarith)]

theorem iouGtBool_self_true {b : Vec4} (hx : b.1 < b.2.2.1) (hy : b.2.1 < b.2.2.2)
    {t : ℚ} (ht1 : t < 1) : iouGtBool b b t = true := by
  have harea : 0 < box_area b := mul_pos (by linarith) (by linarith)
  have hinter := box_inter_self hx.le hy.le
  unfold iouGtBool boxIouPair
  dsimp only
  rw [hinter]
  rw [show box_area b + box_area b - box_area b = box_area b from by ring]
  rw [if_neg (ne_of_gt harea)]
  rw [div_self (ne_of_gt harea)]
  exact decide_eq_true ht1

theorem iouGtBool_offset_classes_false {x1 y1 x2 y2 t : ℚ} {c1 c2 : ℤ}
    (hx1 : 0 ≤ x1) (hy1 : 0 ≤ y1) (hx : x1 < x2) (hy : y1 < y2)
    (hx4 : x2 < 4096) (hy4 : y2 < 4096) (hc : c1 ≠ c2) (ht0 : 0 ≤ t) :
    iouGtBool (boxOffset (x1, y1, x2, y2) ((c1 : ℚ) * 4096))
      (boxOffset (x1, y1, x2, y2) ((c2 : ℚ) * 4096)) t = false := by
  have harea : 0 < box_area ((x1, y1, x2, y2) : Vec4) := by
    unfold box_area
    exact mul_pos (by dsimp only; linarith) (by dsimp only; linarith)
  have hinter : box_inter (boxOffset (x1, y1, x2, y2) ((c1 : ℚ) * 4096))
      (boxOffset (x1, y1, x2, y2) ((c2 : ℚ) * 4096)) = 0 := by
    rcases lt_or_gt_of_ne hc with h | h
    · apply box_inter_zero_of_gap _ hx1 hx4 hy1 hy4
      have h1 : (c1 : ℚ) + 1 ≤ (c2 : ℚ) := by exact_mod_cast Int.add_one_le_iff.mpr h
      nlinarith
    · rw [box_inter_comm]
      apply box_inter_zero_of_gap _ hx1 hx4 hy1 hy4
      have h1 : (c2 : ℚ) + 1 ≤ (c1 : ℚ) := by exact_mod_cast Int.add_one_le_iff.mpr h
      nlinarith
  unfold iouGtBool boxIouPair
  dsimp only
  rw [hinter, box_area_offset, box_area_offset]
  rw [show box_area ((x1, y1, x2, y2) : Vec4) + box_area ((x1, y1, x2, y2) : Vec4) - 0
    = 2 * box_area ((x1, y1, x2, y2) : Vec4) from by ring]
  rw [if_neg (ne_of_gt (by linarith : (0 : ℚ) < 2 * box_area ((x1, y1, x2, y2) : Vec4)))]
  rw [zero_div]
  exact decide_eq_false (not_lt.mpr ht0)

theorem torchvision_nms_pair_keep {B1 B2 : Vec4} {s1 s2 t : ℚ} (hs : s2 ≤ s1)
    (hiou : iouGtBool B1 B2 t = false) :
    torchvision_nms [(B1, s1), (B2, s2)] t = [0, 1] := by
  unfold torchvision_nms
  simp only [List.length_cons, List.length_nil, List.enum]
  rw [show (List.enumFrom 0 [(B1, s1), (B2, s2)]) = [(0, B1, s1), (1, B2, s2)] from rfl]
  simp only [List.insertionSort, List.orderedInsert]
  rw [if_pos (by exact hs : ((1, B2, s2) : ℕ × Vec4 × ℚ).2.2 ≤ ((0, B1, s1) : ℕ × Vec4 × ℚ).2.2)]
  simp only [nmsGreedy, List.filter, hiou, Bool.not_false]

theorem torchvision_nms_pair_drop {B1 B2 : Vec4} {s1 s2 t : ℚ} (hs : s2 ≤ s1)
    (hiou : iouGtBool B1 B2 t = true) :
    torchvision_nms [(B1, s1), (B2, s2)] t = [0] := by
  unfold torchvision_nms
  simp only [List.length_cons, List.length_nil, List.enum]
  rw [show (List.enumFrom 0 [(B1, s1), (B2, s2)]) = [(0, B1, s1), (1, B2, s2)] from rfl]
  simp only [List.insertionSort, List.orderedInsert]
  rw [if_pos (by exact hs : ((1, B2, s2) : ℕ × Vec4 × ℚ).2.2 ≤ ((0, B1, s1) : ℕ × Vec4 × ℚ).2.2)]
  simp only [nmsGreedy, List.filter, hiou, Bool.not_true]

theorem boxOffset_zero (b : Vec4) : boxOffset b 0 = b := by
  unfold boxOffset
  simp

/-- C4 (confirmed): in the batched-NMS step, with `agnostic = False` each
box is offset by `class_id * 4096` before the IoU comparison, so two
identical (maximally overlapping, in-range) boxes of different integer
classes are both retained; with `agnostic = True` no offset is applied and
only the higher-confidence one survives. -/
theorem nms_class_isolation (x1 y1 x2 y2 s1 s2 t : ℚ) (c1 c2 : ℤ)
    (hx1 : 0 ≤ x1) (hy1 : 0 ≤ y1) (hx : x1 < x2) (hy : y1 < y2)
    (hx4 : x2 < 4096) (hy4 : y2 < 4096) (hs : s2 < s1) (hc : c1 ≠ c2)
    (ht0 : 0 ≤ t) (ht1 : t < 1) :
    batchedNMSKeep [((x1, y1, x2, y2), s1, (c1 : ℚ)), ((x1, y1, x2, y2), s2, (c2 : ℚ))] t false
        = [0, 1] ∧
      batchedNMSKeep [((x1, y1, x2, y2), s1, (c1 : ℚ)), ((x1, y1, x2, y2), s2, (c2 : ℚ))] t true
        = [0] := by
  constructor
  · have hoff : offsetBoxes
        [((x1, y1, x2, y2), s1, (c1 : ℚ)), ((x1, y1, x2, y2), s2, (c2 : ℚ))] false
        = [boxOffset (x1, y1, x2, y2) ((c1 : ℚ) * 4096),
           boxOffset (x1, y1, x2, y2) ((c2 : ℚ) * 4096)] := by
      unfold offsetBoxes
      simp
    unfold batchedNMSKeep
    rw [hoff]
    rw [show (([((x1, y1, x2, y2), s1, (c1 : ℚ)), ((x1, y1, x2, y2), s2, (c2 : ℚ))] :
        List Det).map fun d => d.2.1) = [s1, s2] from rfl]
    rw [show ([boxOffset (x1, y1, x2, y2) ((c1 : ℚ) * 4096),
        boxOffset (x1, y1, x2, y2) ((c2 : ℚ) * 4096)].zip [s1, s2])
      = [(boxOffset (x1, y1, x2, y2) ((c1 : ℚ) * 4096), s1),
         (boxOffset (x1, y1, x2, y2) ((c2 : ℚ) * 4096), s2)] from rfl]
    exact torchvision_nms_pair_keep hs.le
      (iouGtBool_offset_classes_false hx1 hy1 hx hy hx4 hy4 hc ht0)
  · have hoff : offsetBoxes
        [((x1, y1, x2, y2), s1, (c1 : ℚ)), ((x1, y1, x2, y2), s2, (c2 : ℚ))] true
        = [((x1, y1, x2, y2) : Vec4), ((x1, y1, x2, y2) : Vec4)] := by
      unfold offsetBoxes
      simp [boxOffset_zero]
    unfold batchedNMSKeep
    rw [hoff]
    rw [show (([((x1, y1, x2, y2), s1, (c1 : ℚ)), ((x1, y1, x2, y2), s2, (c2 : ℚ))] :
        List Det).map fun d => d.2.1) = [s1, s2] from rfl]
    rw [show ([((x1, y1, x2, y2) : Vec4), ((x1, y1, x2, y2) : Vec4)].zip [s1, s2])
      = [(((x1, y1, x2, y2) : Vec4), s1), (((x1, y1, x2, y2) : Vec4), s2)] from rfl]
    exact torchvision_nms_pair_drop hs.le
      (iouGtBool_self_true (by dsimp only; exact hx) (by dsimp only; exact hy) ht1)

/-- Witness for `nms_class_isolation` at the unit-scale box `(0,0,10,10)`
with confidences 9 and 8 and classes 0 and 1 at threshold 0. -/
theorem nms_class_isolation_witness :
    ((0 : ℚ) ≤ 0 ∧ (0 : ℚ) < 10 ∧ (10 : ℚ) < 4096 ∧ (8 : ℚ) < 9 ∧ (0 : ℤ) ≠ 1 ∧
        (0 : ℚ) ≤ 0 ∧ (0 : ℚ) < 1) ∧
      batchedNMSKeep [(((0 : ℚ), 0, 10, 10), 9, ((0 : ℤ) : ℚ)),
          (((0 : ℚ), 0, 10, 10), 8, ((1 : ℤ) : ℚ))] 0 false = [0, 1] ∧
      batchedNMSKeep [(((0 : ℚ), 0, 10, 10), 9, ((0 : ℤ) : ℚ)),
          (((0 : ℚ), 0, 10, 10), 8, ((1 : ℤ) : ℚ))] 0 true = [0] :=
  ⟨⟨by decide, by decide, by decide, by decide, by decide, by decide, by decide⟩,
    nms_class_isolation 0 0 10 10 9 8 0 0 1 (by decide) (by decide) (by decide) (by decide)
      (by decide) (by decide) (by decide) (by decide) (by decide) (by decide)⟩

theorem getD_map_nil {α β : Type _} (l : List α) (j : ℕ) :
    (l.map fun _ => ([] : List β)).getD j [] = [] := by
  rw [List.getD_eq_getElem?_getD, List.getElem?_map]
  rcases hl : l[j]? with _ | a
  · rfl
  · rfl

theorem nmsLoop_break (step : ℕ → List Row → Option (List Det)) (elapsed : ℕ → ℚ)
    (limit : ℚ) :
    ∀ (pred : List (List Row)) (s k : ℕ), k < pred.length →
      (step (s + k) (pred.getD k [])).isSome = true → limit < elapsed (s + k) →
      (∀ j, j < k → elapsed (s + j) ≤ limit) →
      (nmsLoop step elapsed limit s pred).1.length = pred.length ∧
      (∀ j, k < j → j < pred.length → (nmsLoop step elapsed limit s pred).1.getD j [] = []) ∧
      (nmsLoop step elapsed limit s pred).2 = true := by
  intro pred
  induction pred with
  | nil =>
    intro s k hk
    exact absurd hk (by simp)
  | cons img rest ih =>
    intro s k hk hsome hover hbefore
    cases k with
    | zero =>
      rw [Nat.add_zero] at hsome hover
      rw [List.getD_cons_zero] at hsome
      rcases hs : step s img with _ | dets
      · rw [hs] at hsome
        exact absurd hsome (by simp)
      · have hloop : nmsLoop step elapsed limit s (img :: rest)
            = (dets :: rest.map fun _ => [], true) := by
          simp only [nmsLoop, hs]
          rw [if_pos hover]
        rw [hloop]
        refine ⟨by simp, ?_, rfl⟩
        intro j hj0 hjlen
        cases j with
        | zero => exact absurd hj0 (by omega)
        | succ j =>
          rw [List.getD_cons_succ]
          exact getD_map_nil rest j
    | succ k =>
      have hb0 : elapsed s ≤ limit := by
        have h := hbefore 0 (Nat.succ_pos k)
        rwa [Nat.add_zero] at h
      have hk' : k < rest.length := by simpa using hk
      have hsome' : (step ((s + 1) + k) (rest.getD k [])).isSome = true := by
        rw [show (s + 1) + k = s + (k + 1) from by omega]
        rw [List.getD_cons_succ] at hsome
        exact hsome
      have hover' : limit < elapsed ((s + 1) + k) := by
        rw [show (s + 1) + k = s + (k + 1) from by omega]
        exact hover
      have hbefore' : ∀ j, j < k → elapsed ((s + 1) + j) ≤ limit := by
        intro j hj
        rw [show (s + 1) + j = s + (j + 1) from by omega]
        exact hbefore (j + 1) (by omega)
      have IH := ih (s + 1) k hk' hsome' hover' hbefore'
      rcases hs : step s img with _ | dets
      · have hloop : nmsLoop step elapsed limit s (img :: rest)
            = ([] :: (nmsLoop step elapsed limit (s + 1) rest).1,
               (nmsLoop step elapsed limit (s + 1) rest).2) := by
          simp only [nmsLoop, hs]
        rw [hloop]
        refine ⟨by simp [IH.1], ?_, IH.2.2⟩
        intro j hj hjlen
        cases j with
        | zero => exact absurd hj (by omega)
        | succ j =>
          rw [List.getD_cons_succ]
          exact IH.2.1 j (by omega) (by simpa using hjlen)
      · have hloop : nmsLoop step elapsed limit s (img :: rest)
            = (dets :: (nmsLoop step elapsed limit (s + 1) rest).1,
               (nmsLoop step elapsed limit (s + 1) rest).2) := by
          simp only [nmsLoop, hs]
          rw [if_neg (not_lt.mpr hb0)]
        rw [hloop]
        refine ⟨by simp [IH.1], ?_, IH.2.2⟩
        intro j hj hjlen
        cases j with
        | zero => exact absurd hj (by omega)
        | succ j =>
          rw [List.getD_cons_succ]
          exact IH.2.1 j (by omega) (by simpa using hjlen)

/-- C7 (confirmed): when the cumulative wall-clock oracle first exceeds the
hardcoded 10-second budget at a processed image `k`, the suppressor breaks
out of the batch loop: the returned list still has one entry per image,
every image after `k` gets the empty detection set, the warning flag is
set, and the call returns a value (it never raises). -/
theorem nms_time_budget (nc : ℕ) (pred : List (List Row)) (ct it : ℚ)
    (cls : Option (List ℚ)) (ag ml : Bool) (lbls : List (List (ℕ × Vec4)))
    (elapsed : ℕ → ℚ) (k : ℕ) (hk : k < pred.length)
    (hproc : (nmsPerImage nc ct it cls ag (ml && decide (1 < nc)) false (lbls.getD k [])
        (pred.getD k [])).isSome = true)
    (hover : 10 < elapsed k)
    (hbefore : ∀ j, j < k → elapsed j ≤ 10) :
    (non_max_suppression nc pred ct it cls ag ml lbls elapsed).length = pred.length ∧
    (∀ j, k < j → j < pred.length →
      (non_max_suppression nc pred ct it cls ag ml lbls elapsed).getD j [] = []) ∧
    (nmsLoop (fun xi img => nmsPerImage nc ct it cls ag (ml && decide (1 < nc)) false
        (lbls.getD xi []) img) elapsed 10 0 pred).2 = true := by
  have h := nmsLoop_break
    (fun xi img => nmsPerImage nc ct it cls ag (ml && decide (1 < nc)) false
      (lbls.getD xi []) img)
    elapsed 10 pred 0 k hk (by simpa using hproc) (by simpa using hover)
    (by intro j hj; simpa using hbefore j hj)
  exact ⟨h.1, h.2.1, h.2.2⟩

theorem nmsPerImage_small (nc : ℕ) (ct it : ℚ) (cls : Option (List ℚ)) (ag ml mg : Bool)
    (lbls : List (ℕ × Vec4)) (rows : List Row) (dets0 : List Det)
    (h : nmsDets nc ct cls ml lbls rows = some dets0) (hn : ¬ 30000 < dets0.length) :
    nmsPerImage nc ct it cls ag ml mg lbls rows
      = some (if mg ∧ 1 < dets0.length ∧ dets0.length < 3000
          then mergeNMS dets0 (offsetBoxes dets0 ag) ((batchedNMSKeep dets0 it ag).take 300) it
          else ((batchedNMSKeep dets0 it ag).take 300).filterMap fun k => dets0[k]?) := by
  unfold nmsPerImage
  rw [h, Option.map_some']
  dsimp only
  rw [if_neg hn]

theorem nmsPerImage_merge_false (nc : ℕ) (ct it : ℚ) (cls : Option (List ℚ)) (ag ml : Bool)
    (lbls : List (ℕ × Vec4)) (rows : List Row) :
    nmsPerImage nc ct it cls ag ml false lbls rows
      = nmsPerImageNoMergeBranch nc ct it cls ag ml lbls rows := by
  unfold nmsPerImage nmsPerImageNoMergeBranch
  rcases h : nmsDets nc ct cls ml lbls rows with _ | dets0
  · rfl
  · simp only [Option.map_some']
    rw [if_neg (by simp)]

/-- C6 (amended): `merge` is not a configuration parameter of the
suppressor: the settings block hardcodes `merge = False`, so
`non_max_suppression` always equals the merge-free suppressor; the merge
branch itself is guarded by `merge and (1 < n < 3E3)` over the candidate
count `n` entering NMS, so with the flag off — or outside the `[2, 3000)`
window even with it forced on — nothing is merged. -/
theorem nms_merge_hardcoded_off :
    (∀ (nc : ℕ) (pred : List (List Row)) (ct it : ℚ) (cls : Option (List ℚ)) (ag ml : Bool)
        (lbls : List (List (ℕ × Vec4))) (elapsed : ℕ → ℚ),
      non_max_suppression nc pred ct it cls ag ml lbls elapsed
        = (nmsLoop (fun xi img => nmsPerImageNoMergeBranch nc ct it cls ag
            (ml && decide (1 < nc)) (lbls.getD xi []) img) elapsed 10 0 pred).1) ∧
    (∀ (nc : ℕ) (ct it : ℚ) (cls : Option (List ℚ)) (ag ml mg : Bool)
        (lbls : List (ℕ × Vec4)) (rows : List Row) (dets0 : List Det),
      nmsDets nc ct cls ml lbls rows = some dets0 →
      ¬ (1 < dets0.length ∧ dets0.length < 3000) →
      nmsPerImage nc ct it cls ag ml mg lbls rows
        = nmsPerImage nc ct it cls ag ml false lbls rows) := by
  constructor
  · intro nc pred ct it cls ag ml lbls elapsed
    unfold non_max_suppression
    have hstep : (fun xi img => nmsPerImage nc ct it cls ag (ml && decide (1 < nc)) false
        (lbls.getD xi []) img)
        = fun xi img => nmsPerImageNoMergeBranch nc ct it cls ag (ml && decide (1 < nc))
            (lbls.getD xi []) img := by
      funext xi img
      exact nmsPerImage_merge_false nc ct it cls ag (ml && decide (1 < nc)) (lbls.getD xi []) img
    rw [hstep]
  · intro nc ct it cls ag ml mg lbls rows dets0 h hwin
    unfold nmsPerImage
    rw [h]
    simp only [Option.map_some']
    have hA : ¬ (mg = true ∧ 1 < dets0.length ∧ dets0.length < 3000) := by
      rintro ⟨-, h1, h2⟩
      exact hwin ⟨h1, h2⟩
    rw [if_neg hA,
      if_neg (show ¬ ((false = true) ∧ 1 < dets0.length ∧ dets0.length < 3000) from by simp)]

/-- Witness for `nms_merge_hardcoded_off`: one processed single-candidate
image (`n = 1`, outside the merge window). -/
theorem nms_merge_hardcoded_off_witness :
    (nmsDets 1 0 none false [] [(((1 : ℚ)/2, 1/2, 1, 1), 1, [1])]
        = some [(((0 : ℚ), 0, 1, 1), 1, 0)] ∧
      ¬ (1 < ([(((0 : ℚ), 0, 1, 1), 1, 0)] : List Det).length ∧
          ([(((0 : ℚ), 0, 1, 1), 1, 0)] : List Det).length < 3000)) ∧
      non_max_suppression 1 [[(((1 : ℚ)/2, 1/2, 1, 1), 1, [1])]] 0 (1/2) none true false []
          (fun _ => 0)
        = (nmsLoop (fun xi img => nmsPerImageNoMergeBranch 1 0 (1/2) none true
            (false && decide (1 < 1)) (([] : List (List (ℕ × Vec4))).getD xi []) img)
            (fun _ => 0) 10 0 [[(((1 : ℚ)/2, 1/2, 1, 1), 1, [1])]]).1 ∧
      nmsPerImage 1 0 (1/2) none true false true [] [(((1 : ℚ)/2, 1/2, 1, 1), 1, [1])]
        = nmsPerImage 1 0 (1/2) none true false false [] [(((1 : ℚ)/2, 1/2, 1, 1), 1, [1])] :=
  ⟨⟨by norm_num [nmsDets, argmaxWithIdx, xywh2xyxy, decide_eq_true_eq, List.filterMap_cons],
      by decide⟩,
    nms_merge_hardcoded_off.1 1 [[(((1 : ℚ)/2, 1/2, 1, 1), 1, [1])]] 0 (1/2) none true false []
      (fun _ => 0),
    nms_merge_hardcoded_off.2 1 0 (1/2) none true false true []
      [(((1 : ℚ)/2, 1/2, 1, 1), 1, [1])] [(((0 : ℚ), 0, 1, 1), 1, 0)]
      (by norm_num [nmsDets, argmaxWithIdx, xywh2xyxy, decide_eq_true_eq, List.filterMap_cons])
      (by decide)⟩

/-- C6 (counterexample): on two overlapping candidates (`n = 2`, inside
the claimed `[2, 3000)` window) the suppressor — whose signature has no
merge parameter — returns the raw highest-confidence box, while the merge
branch with the flag forced on would return the confidence-weighted box
starting at `4/17 ≠ 0`: merge mode is not an explicit configuration flag
of `non_max_suppression` and is never applied. -/
theorem nms_merge_not_configurable_cex :
    non_max_suppression 1
        [[(((5 : ℚ), 5, 10, 10), 9/10, [1]), (((11 : ℚ)/2, 11/2, 10, 10), 8/10, [1])]]
        (1/4) (9/20) none false false [] (fun _ => 0)
      = [[(((0 : ℚ), 0, 10, 10), 9/10, 0)]] ∧
    nmsPerImage 1 (1/4) (9/20) none false false true []
        [(((5 : ℚ), 5, 10, 10), 9/10, [1]), (((11 : ℚ)/2, 11/2, 10, 10), 8/10, [1])]
      = some [(((4 : ℚ)/17, 4/17, 174/17, 174/17), 9/10, 0)] ∧
    ((4 : ℚ)/17 ≠ 0) := by
  have h1 : nmsDets 1 (1/4) none false []
        [(((5 : ℚ), 5, 10, 10), 9/10, [1]), (((11 : ℚ)/2, 11/2, 10, 10), 8/10, [1])]
      = some [(((0 : ℚ), 0, 10, 10), 9/10, 0), (((1 : ℚ)/2, 1/2, 21/2, 21/2), 8/10, 0)] := by
    norm_num [nmsDets, argmaxWithIdx, xywh2xyxy, decide_eq_true_eq, List.filterMap_cons]
    exact ⟨by simp, by simp⟩
  have hkeep : batchedNMSKeep
        [(((0 : ℚ), 0, 10, 10), 9/10, 0), (((1 : ℚ)/2, 1/2, 21/2, 21/2), 8/10, 0)] (9/20) false
      = [0] := by
    unfold batchedNMSKeep
    rw [show offsetBoxes
        [(((0 : ℚ), 0, 10, 10), 9/10, 0), (((1 : ℚ)/2, 1/2, 21/2, 21/2), 8/10, 0)] false
        = [((0 : ℚ), 0, 10, 10), ((1 : ℚ)/2, 1/2, 21/2, 21/2)] from by
      norm_num [offsetBoxes, boxOffset]]
    exact torchvision_nms_pair_drop (by norm_num)
      (by norm_num [iouGtBool, boxIouPair, box_inter, box_area, min_def, max_def,
        decide_eq_true_eq])
  have hfalse : nmsPerImage 1 (1/4) (9/20) none false false false []
        [(((5 : ℚ), 5, 10, 10), 9/10, [1]), (((11 : ℚ)/2, 11/2, 10, 10), 8/10, [1])]
      = some [(((0 : ℚ), 0, 10, 10), 9/10, 0)] := by
    rw [nmsPerImage_small 1 (1/4) (9/20) none false false false [] _ _ h1 (by norm_num)]
    rw [if_neg (by norm_num)]
    rw [hkeep]
    rw [List.take_of_length_le (by norm_num)]
    simp [List.filterMap_cons]
  have htrue : nmsPerImage 1 (1/4) (9/20) none false false true []
        [(((5 : ℚ), 5, 10, 10), 9/10, [1]), (((11 : ℚ)/2, 11/2, 10, 10), 8/10, [1])]
      = some [(((4 : ℚ)/17, 4/17, 174/17, 174/17), 9/10, 0)] := by
    rw [nmsPerImage_small 1 (1/4) (9/20) none false false true [] _ _ h1 (by norm_num)]
    rw [if_pos (by norm_num)]
    rw [hkeep]
    rw [List.take_of_length_le (by norm_num)]
    rw [show offsetBoxes
        [(((0 : ℚ), 0, 10, 10), 9/10, 0), (((1 : ℚ)/2, 1/2, 21/2, 21/2), 8/10, 0)] false
        = [((0 : ℚ), 0, 10, 10), ((1 : ℚ)/2, 1/2, 21/2, 21/2)] from by
      norm_num [offsetBoxes, boxOffset]]
    have hiou11 : iouGtBool ((0 : ℚ), 0, 10, 10) ((0 : ℚ), 0, 10, 10) (9/20) = true :=
      iouGtBool_self_true (by norm_num) (by norm_num) (by norm_num)
    have hiou12 : iouGtBool ((0 : ℚ), 0, 10, 10) ((1 : ℚ)/2, 1/2, 21/2, 21/2) (9/20)
        = true := by
      norm_num [iouGtBool, boxIouPair, box_inter, box_area, min_def, max_def, decide_eq_true_eq]
    norm_num [mergeNMS, hiou11, hiou12, scaleBox, addBox, List.count_cons, decide_eq_true_eq]
  refine ⟨?_, htrue, by norm_num⟩
  unfold non_max_suppression
  simp only [nmsLoop, Bool.false_and, List.getD_nil]
  rw [hfalse]
  dsimp only
  rw [if_neg (by norm_num : ¬ (10 : ℚ) < 0)]

/-- Witness for `nms_time_budget`: two single-candidate images with the
clock already past the budget after the first. -/
theorem nms_time_budget_witness :
    ((0 : ℕ) < 2 ∧ (10 : ℚ) < 11) ∧
      (non_max_suppression 1
          [[(((1 : ℚ)/2, 1/2, 1, 1), 1, [1])], [(((1 : ℚ)/2, 1/2, 1, 1), 1, [1])]]
          0 (1/2) none true false [] (fun _ => 11)).length
        = ([[(((1 : ℚ)/2, 1/2, 1, 1), 1, [1])], [(((1 : ℚ)/2, 1/2, 1, 1), 1, [1])]] :
            List (List Row)).length ∧
      (∀ j, 0 < j →
        j < ([[(((1 : ℚ)/2, 1/2, 1, 1), 1, [1])], [(((1 : ℚ)/2, 1/2, 1, 1), 1, [1])]] :
            List (List Row)).length →
        (non_max_suppression 1
            [[(((1 : ℚ)/2, 1/2, 1, 1), 1, [1])], [(((1 : ℚ)/2, 1/2, 1, 1), 1, [1])]]
            0 (1/2) none true false [] (fun _ => 11)).getD j [] = []) ∧
      (nmsLoop (fun xi img => nmsPerImage 1 0 (1/2) none true (false && decide (1 < 1)) false
          (([] : List (List (ℕ × Vec4))).getD xi []) img) (fun _ => 11) 10 0
          [[(((1 : ℚ)/2, 1/2, 1, 1), 1, [1])], [(((1 : ℚ)/2, 1/2, 1, 1), 1, [1])]]).2
        = true :=
  ⟨⟨by decide, by decide⟩,
    (nms_time_budget 1
      [[(((1 : ℚ)/2, 1/2, 1, 1), 1, [1])], [(((1 : ℚ)/2, 1/2, 1, 1), 1, [1])]]
      0 (1/2) none true false [] (fun _ => 11) 0 (by decide)
      (by simp [nmsPerImage, nmsDets, argmaxWithIdx, xywh2xyxy, decide_eq_true_eq])
      (by decide) (fun j hj => absurd hj (Nat.not_lt_zero j))).1,
    (nms_time_budget 1
      [[(((1 : ℚ)/2, 1/2, 1, 1), 1, [1])], [(((1 : ℚ)/2, 1/2, 1, 1), 1, [1])]]
      0 (1/2) none true false [] (fun _ => 11) 0 (by decide)
      (by simp [nmsPerImage, nmsDets, argmaxWithIdx, xywh2xyxy, decide_eq_true_eq])
      (by decide) (fun j hj => absurd hj (Nat.not_lt_zero j))).2.1,
    (nms_time_budget 1
      [[(((1 : ℚ)/2, 1/2, 1, 1), 1, [1])], [(((1 : ℚ)/2, 1/2, 1, 1), 1, [1])]]
      0 (1/2) none true false [] (fun _ => 11) 0 (by decide)
      (by simp [nmsPerImage, nmsDets, argmaxWithIdx, xywh2xyxy, decide_eq_true_eq])
      (by decide) (fun j hj => absurd hj (Nat.not_lt_zero j))).2.2⟩
